import Mathlib

/-!
Verification development for the actor/store transition runtime described by
the repository documentation (xstate store, invoked actors, promise actors).
The corpus ships only type declarations and prose documentation; the runtime
itself is therefore modelled from the specification, faithfully to its words,
and the stated properties are settled against that model.
-/

namespace StoreRuntime

/-- Modelled from the spec: context values are plain data (numbers, strings),
as in the documented examples such as `count: 0, name: Ada`. -/
inductive Value where
  | int (n : Int)
  | str (s : String)
deriving DecidableEq

/-- Modelled from the spec: a context is a record of named fields, represented
as an association list from field names to values. -/
abbrev Ctx := List (String × Value)

/-- Modelled from the spec: field lookup in a context record; the first entry
with the given name wins. -/
def ctxLookup : Ctx → String → Option Value
  | [], _ => none
  | (k', v) :: rest, k => if k' = k then some v else ctxLookup rest k

/-- Modelled from the spec: a handler may return a partial context object that
is shallow-merged into the current context — fields named in the patch are
overridden, all other fields are kept, and new fields are appended. -/
def shallowMerge (c patch : Ctx) : Ctx :=
  (c.map (fun kv =>
    match ctxLookup patch kv.1 with
    | some v => (kv.1, v)
    | none => kv))
  ++ patch.filter (fun kv => (ctxLookup c kv.1).isNone)

/-- Modelled from the spec: events are tagged objects with a `type`
discriminant and a payload of named fields. -/
structure Event where
  type : String
  payload : List (String × Value)
deriving DecidableEq

/-- Modelled from the spec: snapshot status, one of
active, done, error, stopped. -/
inductive Status where
  | active
  | done
  | error
  | stopped
deriving DecidableEq

/-- Modelled from the spec: a store snapshot is an immutable value holding the
context and the status at a point in time. -/
structure StoreSnapshot where
  context : Ctx
  status : Status
deriving DecidableEq

/-- Modelled from the spec: errors thrown by transition handlers. -/
abbrev Err := String

/-- Modelled from the spec: a transition handler receives the context and the
event, and either throws, or returns an optional partial context (none models
a void return) together with the emitted events staged via `enqueue`, in call
order. -/
abbrev Handler := Ctx → Event → Except Err (Option Ctx × List Event)

/-- Modelled from the spec: the transition definition maps event types to
handlers; an event type with no registered handler maps to none. -/
abbrev Transitions := String → Option Handler

/-- Modelled from the spec: `enqueue` stages one emitted event at the end of
the staged list, so repeated calls stage events in call order (FIFO). -/
def enqueueEv (staged : List Event) (e : Event) : List Event :=
  staged ++ [e]

/-- Modelled from the spec: `createStoreTransition` (declared in
`store.d.ts` without a body) — looks up the handler for the event type; if
none exists the snapshot is returned unchanged with no emitted events; if the
handler throws, the transition is aborted with that error; otherwise the
returned partial context is shallow-merged into the current context and the
staged emitted events are returned. -/
def createStoreTransition (ts : Transitions) (snap : StoreSnapshot) (ev : Event) :
    Except Err (StoreSnapshot × List Event) :=
  match ts ev.type with
  | none => Except.ok (snap, [])
  | some h =>
    match h snap.context ev with
    | Except.error e => Except.error e
    | Except.ok (patch, emitted) =>
      let newCtx :=
        match patch with
        | none => snap.context
        | some p => shallowMerge snap.context p
      Except.ok ({ context := newCtx, status := snap.status }, emitted)

/-- Modelled from the spec: an observation delivered to subscribers — either a
committed snapshot or an emitted event. -/
inductive Obs where
  | commit (s : StoreSnapshot)
  | emit (e : Event)
deriving DecidableEq

/-- Modelled from the spec: the store state — the current snapshot and the
ordered log of observations delivered to subscribers so far. -/
structure StoreState where
  snapshot : StoreSnapshot
  log : List Obs
deriving DecidableEq

/-- Modelled from the spec: the store created from an initial context, with
status active and nothing delivered yet. -/
def initialStore (c : Ctx) : StoreState :=
  { snapshot := { context := c, status := Status.active }, log := [] }

/-- Modelled from the spec: `getSnapshot` returns the current immutable
snapshot. -/
def getSnapshot (st : StoreState) : StoreSnapshot :=
  st.snapshot

/-- Modelled from the spec: processing one `send`. If the handler throws, the
transition is aborted: the store is left unchanged and the error is returned
to the caller. Otherwise the new snapshot is committed first and the staged
emitted events are delivered to subscribers afterwards, in call order. -/
def sendStore (ts : Transitions) (st : StoreState) (ev : Event) :
    StoreState × Option Err :=
  match createStoreTransition ts st.snapshot ev with
  | Except.error e => (st, some e)
  | Except.ok (snap', emitted) =>
    ({ snapshot := snap',
       log := st.log ++ Obs.commit snap' :: emitted.map Obs.emit }, none)

/-- Modelled from the spec: the documented example handler for the `inc`
event — reads `count` from the context and `by` from the event payload and
returns the partial context `count := count + by`. -/
def incHandler : Handler := fun c ev =>
  match ctxLookup c "count", ctxLookup ev.payload "by" with
  | some (Value.int n), some (Value.int b) =>
      Except.ok (some [("count", Value.int (n + b))], [])
  | _, _ => Except.error "inc-bad-payload"

/-- Modelled from the spec: a transition definition registering only the
`inc` handler of the documented example. -/
def incTransitions : Transitions := fun t =>
  if t = "inc" then some incHandler else none

/-- Modelled from the spec: a sample emitted event used to exercise the
emission-ordering guarantee. -/
def evE1 : Event := { type := "e1", payload := [] }

/-- Modelled from the spec: a second sample emitted event. -/
def evE2 : Event := { type := "e2", payload := [] }

/-- Modelled from the spec: the event triggering the handler that enqueues
two emitted events. -/
def evFire : Event := { type := "fire", payload := [] }

/-- Modelled from the spec: a handler that calls enqueue on e1 and then on
e2, and returns void (no context change). -/
def fireHandler : Handler := fun _ _ =>
  Except.ok (none, enqueueEv (enqueueEv [] evE1) evE2)

/-- Modelled from the spec: a transition definition registering only the
two-emission handler. -/
def fireTransitions : Transitions := fun t =>
  if t = "fire" then some fireHandler else none

/-- Modelled from the spec: lifecycle status of a running actor. -/
inductive PStatus where
  | active
  | done
  | error
  | stopped
deriving DecidableEq

/-- Modelled from the spec: the snapshot of a promise actor — its status plus
the output recorded on resolution and the error recorded on rejection. -/
structure PSnapshot where
  status : PStatus
  output : Option Value
  error : Option Value
deriving DecidableEq

/-- Modelled from the spec: the happenings a promise actor can be subjected
to — its promise resolving or rejecting, being stopped, or receiving an
external event sent to it. -/
inductive PEvent where
  | resolve (v : Value)
  | reject (r : Value)
  | stop
  | ext (e : Event)
deriving DecidableEq

/-- Modelled from the spec: the transition of promise-actor logic as created
by `fromPromise` (documented in `invoke-api.md`, no body in the corpus). On
resolution from active the actor becomes done with output the resolved value;
on rejection from active it becomes error with error the rejection reason;
stop moves an active actor to stopped; a settlement after stop is discarded
(no state change after a terminal status); sending events is a no-op. -/
def promiseTransition (s : PSnapshot) (ev : PEvent) : PSnapshot :=
  match ev with
  | PEvent.resolve v =>
      if s.status = PStatus.active then
        { status := PStatus.done, output := some v, error := none }
      else s
  | PEvent.reject r =>
      if s.status = PStatus.active then
        { status := PStatus.error, output := none, error := some r }
      else s
  | PEvent.stop =>
      if s.status = PStatus.active then
        { status := PStatus.stopped, output := s.output, error := s.error }
      else s
  | PEvent.ext _ => s

/-- Modelled from the spec: `toPromise(actor)` observes the actor's snapshot
stream — the current snapshot first, then each later one — and settles at the
first snapshot whose status is terminal: it resolves with that snapshot's
output when the status is done and rejects with that snapshot's error when
the status is error; none models a promise that never settles. -/
def toPromise : List PSnapshot → Option (Except (Option Value) (Option Value))
  | [] => none
  | s :: rest =>
    match s.status with
    | PStatus.done => some (Except.ok s.output)
    | PStatus.error => some (Except.error s.error)
    | PStatus.active => toPromise rest
    | PStatus.stopped => toPromise rest

/-- Modelled from the spec: regions (logical states) are identified by
name. -/
abbrev RegionId := String

/-- Modelled from the spec: an invoked actor is registered under the pair of
its owning state id and its actor id. -/
structure ActorKey where
  owner : RegionId
  actorId : String
deriving DecidableEq

/-- Modelled from the spec: a freshly created invoked actor starts active with
no output and no error recorded. -/
def freshActor : PSnapshot :=
  { status := PStatus.active, output := none, error := none }

/-- Modelled from the spec: the machine configuration the invocation manager
consults — which actor ids each region invokes, and for each actor id the
onDone / onError context actions and optional target regions. -/
structure InvokeConfig where
  bindings : RegionId → List String
  onDoneCtx : String → Value → Ctx → Ctx
  onErrorCtx : String → Value → Ctx → Ctx
  onDoneTarget : String → Option RegionId
  onErrorTarget : String → Option RegionId

/-- Modelled from the spec: the state the invocation manager maintains — the
active region, the machine context, the registry of live invoked actors, a
log of the onDone / onError completion events routed to the owning store, and
a log of lifecycle actions (started / stopped per actor key). -/
structure MachineState where
  region : RegionId
  ctx : Ctx
  registry : List (ActorKey × PSnapshot)
  fired : List (String × ActorKey × Value)
  lifecycle : List (String × ActorKey)
deriving DecidableEq

/-- Modelled from the spec: registry lookup by actor key. -/
def lookupReg : List (ActorKey × PSnapshot) → ActorKey → Option PSnapshot
  | [], _ => none
  | (k', s) :: rest, k => if k' = k then some s else lookupReg rest k

/-- Modelled from the spec: deregistering one actor key. -/
def removeReg (k : ActorKey) : List (ActorKey × PSnapshot) → List (ActorKey × PSnapshot)
  | [] => []
  | kv :: rest => if kv.1 = k then removeReg k rest else kv :: removeReg k rest

/-- Modelled from the spec: the registry entries owned by a given region. -/
def takeOwned (r : RegionId) : List (ActorKey × PSnapshot) → List (ActorKey × PSnapshot)
  | [] => []
  | kv :: rest => if kv.1.owner = r then kv :: takeOwned r rest else takeOwned r rest

/-- Modelled from the spec: the registry entries not owned by a given
region. -/
def dropOwned (r : RegionId) : List (ActorKey × PSnapshot) → List (ActorKey × PSnapshot)
  | [] => []
  | kv :: rest => if kv.1.owner = r then dropOwned r rest else kv :: dropOwned r rest

/-- Modelled from the spec: a region change. On exit of the current region
the manager stops every actor registered under it (logging a stopped action
and dropping it from the registry); on entry of the new region it creates,
starts and registers a fresh actor for each invocation binding declared for
that region (logging a started action). -/
def enterRegion (cfg : InvokeConfig) (m : MachineState) (r : RegionId) : MachineState :=
  { region := r
    ctx := m.ctx
    registry :=
      dropOwned m.region m.registry
      ++ (cfg.bindings r).map (fun aid => ((⟨r, aid⟩ : ActorKey), freshActor))
    fired := m.fired
    lifecycle :=
      m.lifecycle
      ++ (takeOwned m.region m.registry).map (fun kv => ("stopped", kv.1))
      ++ (cfg.bindings r).map (fun aid => ("started", (⟨r, aid⟩ : ActorKey))) }

/-- Modelled from the spec: arrival of a child settlement on the store's
serialized queue. If the actor is not currently registered as active the
result is discarded silently — no onDone / onError fires and the state is
untouched. Otherwise the actor is torn down (deregistered, stopped logged),
the completion is routed through the declared onDone / onError context
action, the completion event is logged as fired, and a declared target region
is entered. -/
def applySettlement (cfg : InvokeConfig) (m : MachineState) (k : ActorKey)
    (res : Except Value Value) : MachineState :=
  match lookupReg m.registry k with
  | none => m
  | some snap =>
    if snap.status = PStatus.active then
      match res with
      | Except.ok v =>
        let m1 : MachineState :=
          { region := m.region
            ctx := cfg.onDoneCtx k.actorId v m.ctx
            registry := removeReg k m.registry
            fired := m.fired ++ [("done", k, v)]
            lifecycle := m.lifecycle ++ [("stopped", k)] }
        match cfg.onDoneTarget k.actorId with
        | none => m1
        | some tgt => enterRegion cfg m1 tgt
      | Except.error e =>
        let m1 : MachineState :=
          { region := m.region
            ctx := cfg.onErrorCtx k.actorId e m.ctx
            registry := removeReg k m.registry
            fired := m.fired ++ [("error", k, e)]
            lifecycle := m.lifecycle ++ [("stopped", k)] }
        match cfg.onErrorTarget k.actorId with
        | none => m1
        | some tgt => enterRegion cfg m1 tgt
    else m

/-- Modelled from the spec: stopping the parent store stops every registered
child actor and empties the registry. -/
def stopMachine (m : MachineState) : MachineState :=
  { region := m.region
    ctx := m.ctx
    registry := []
    fired := m.fired
    lifecycle := m.lifecycle ++ m.registry.map (fun kv => ("stopped", kv.1)) }

/-- Modelled from the spec: the machine before any region change, with an
empty registry and empty logs. -/
def initMachine (r0 : RegionId) (c : Ctx) : MachineState :=
  { region := r0, ctx := c, registry := [], fired := [], lifecycle := [] }

/-- Modelled from the spec: a sample configuration in which region A invokes
one promise actor named worker, assigning its output into the context on
completion, with no target change. -/
def wCfg : InvokeConfig :=
  { bindings := fun r => if r = "A" then ["worker"] else []
    onDoneCtx := fun _ v c => shallowMerge c [("user", v)]
    onErrorCtx := fun _ e c => shallowMerge c [("cause", e)]
    onDoneTarget := fun _ => none
    onErrorTarget := fun _ => none }

/-- Modelled from the spec: the store's single logical event-processing
queue — the pending events in FIFO arrival order, the store, the events whose
transitions have been applied so far (in order), and the handler errors
surfaced to send callers. -/
structure LoopState where
  pending : List Event
  store : StoreState
  processed : List Event
  errs : List Err
deriving DecidableEq

/-- Modelled from the spec: one scheduling step of the store's cooperative
event loop. The only possible step processes the head of the queue as one
atomic unit — the transition computation and its commit happen within a
single step, so at most one transition is ever in flight and no two
transitions interleave. -/
inductive LoopStep (ts : Transitions) : LoopState → LoopState → Prop where
  | proc (ev : Event) (rest : List Event) (st : StoreState) (pr : List Event)
      (es : List Err) :
      LoopStep ts
        { pending := ev :: rest, store := st, processed := pr, errs := es }
        { pending := rest, store := (sendStore ts st ev).1,
          processed := pr ++ [ev],
          errs := es ++ (sendStore ts st ev).2.toList }

/-- Modelled from the spec: a run of the event loop — zero or more scheduling
steps. -/
abbrev Reaches (ts : Transitions) : LoopState → LoopState → Prop :=
  Relation.ReflTransGen (LoopStep ts)

/-- Modelled from the spec: the loop state after N send calls have arrived,
in submission order, before any processing. -/
def mkLoop (st : StoreState) (evs : List Event) : LoopState :=
  { pending := evs, store := st, processed := [], errs := [] }

/-- Modelled from the spec: sequential application of a list of events, one
committed transition after the other. -/
def runEvents (ts : Transitions) (st : StoreState) : List Event → StoreState
  | [] => st
  | ev :: rest => runEvents ts (sendStore ts st ev).1 rest

/-- Modelled from the spec: the handler errors surfaced while sequentially
applying a list of events. -/
def runErrs (ts : Transitions) (st : StoreState) : List Event → List Err
  | [] => []
  | ev :: rest =>
      (sendStore ts st ev).2.toList ++ runErrs ts (sendStore ts st ev).1 rest

/-- Modelled from the spec: fully draining a pending queue, carrying the
store, the processed list and the surfaced errors. -/
def drainAux (ts : Transitions) :
    List Event → StoreState → List Event → List Err → LoopState
  | [], st, pr, es => { pending := [], store := st, processed := pr, errs := es }
  | ev :: rest, st, pr, es =>
      drainAux ts rest (sendStore ts st ev).1 (pr ++ [ev])
        (es ++ (sendStore ts st ev).2.toList)

/-- Modelled from the spec: the unique fully-processed loop state determined
by a loop state. -/
def drain (ts : Transitions) (s : LoopState) : LoopState :=
  drainAux ts s.pending s.store s.processed s.errs

/-- Modelled from the spec: a sample event with no registered handler. -/
def wEv : Event := { type := "ping", payload := [] }

/-- Modelled from the spec: an empty transition definition. -/
def wTs : Transitions := fun _ => none

/-- Modelled from the spec: the loop state after the one pending sample event
has been processed. -/
def wFinal : LoopState :=
  { pending := [], store := (sendStore wTs (initialStore []) wEv).1,
    processed := [] ++ [wEv],
    errs := [] ++ (sendStore wTs (initialStore []) wEv).2.toList }

/-- Field lookup after filtering an association list cannot find a name that
the unfiltered list does not hold. -/
theorem ctxLookup_filter_none (p : Ctx) (g : String × Value → Bool) (k : String)
    (hp : ctxLookup p k = none) : ctxLookup (p.filter g) k = none := by
  induction p with
  | nil => exact hp
  | cons kv rest ih =>
      obtain ⟨k1, v1⟩ := kv
      by_cases hk : k1 = k
      · simp [ctxLookup, hk] at hp
      · cases hg : g (k1, v1) <;>
          simp only [List.filter, hg, ctxLookup, hk, if_false] at hp ⊢ <;>
          exact ih hp

/-- Patching the values of fields named in a patch list does not affect the
lookup of any field the patch does not name. -/
theorem ctxLookup_mapPatch (p c : Ctx) (k : String) (hp : ctxLookup p k = none) :
    ctxLookup (c.map (fun kv =>
      match ctxLookup p kv.1 with
      | some v => (kv.1, v)
      | none => kv)) k = ctxLookup c k := by
  induction c with
  | nil => rfl
  | cons kv rest ih =>
      obtain ⟨k1, v1⟩ := kv
      by_cases hk : k1 = k
      · subst hk
        cases hcl : ctxLookup p k1 with
        | none => simp [ctxLookup, hcl]
        | some v => exact absurd hp (by simp [hcl])
      · cases hcl : ctxLookup p k1 <;> simp [ctxLookup, hcl, hk, ih]

/-- Field lookup distributes over list append: the left record wins. -/
theorem ctxLookup_append (a b : Ctx) (k : String) :
    ctxLookup (a ++ b) k =
      match ctxLookup a k with
      | some v => some v
      | none => ctxLookup b k := by
  induction a with
  | nil => rfl
  | cons kv rest ih =>
      obtain ⟨k1, v1⟩ := kv
      by_cases hk : k1 = k <;> simp [ctxLookup, hk, ih]

/-- C4: a transition for an event type with no registered handler returns the
snapshot unchanged — context and status identical — and raises no error. -/
theorem unknown_event_noop (ts : Transitions) (snap : StoreSnapshot) (ev : Event)
    (h : ts ev.type = none) :
    createStoreTransition ts snap ev = Except.ok (snap, []) := by
  simp [createStoreTransition, h]

theorem unknown_event_noop_witness :
    ((fun _ => none : Transitions) "__unknown__") = none ∧
    createStoreTransition (fun _ => none)
        { context := [("count", Value.int 0)], status := Status.active }
        { type := "__unknown__", payload := [] }
      = Except.ok ({ context := [("count", Value.int 0)], status := Status.active }, []) :=
  ⟨rfl, unknown_event_noop (fun _ => none)
    { context := [("count", Value.int 0)], status := Status.active }
    { type := "__unknown__", payload := [] } rfl⟩

/-- C2: if the handler registered for the event type throws, the transition is
aborted atomically — the store after the failed send equals its pre-transition
state (so the snapshot is at its pre-transition value) and the error is
returned synchronously to the caller of send. -/
theorem handler_throw_aborts_transition (ts : Transitions) (st : StoreState)
    (ev : Event) (h : Handler) (e : Err)
    (hh : ts ev.type = some h)
    (he : h st.snapshot.context ev = Except.error e) :
    sendStore ts st ev = (st, some e) := by
  simp [sendStore, createStoreTransition, hh, he]

theorem handler_throw_aborts_transition_witness :
    ((fun t => if t = "boom" then some (fun _ _ => Except.error "exploded") else none :
        Transitions) "boom")
      = some (fun _ _ => Except.error "exploded") ∧
    (fun _ _ => Except.error "exploded" : Handler)
        (initialStore [("count", Value.int 0)]).snapshot.context
        { type := "boom", payload := [] }
      = Except.error "exploded" ∧
    sendStore (fun t => if t = "boom" then some (fun _ _ => Except.error "exploded") else none)
        (initialStore [("count", Value.int 0)]) { type := "boom", payload := [] }
      = (initialStore [("count", Value.int 0)], some "exploded") :=
  ⟨rfl, rfl,
    handler_throw_aborts_transition
      (fun t => if t = "boom" then some (fun _ _ => Except.error "exploded") else none)
      (initialStore [("count", Value.int 0)]) { type := "boom", payload := [] }
      (fun _ _ => Except.error "exploded") "exploded" rfl rfl⟩

/-- C9: a handler returning a partial context object is shallow-merged into
the current context — any field the partial does not name keeps its value —
and on the documented example, context count 0 / name Ada with event inc by 5
yields snapshot context count 5 / name Ada with status active. -/
theorem shallow_merge_frame :
    (∀ (c p : Ctx) (k : String), ctxLookup p k = none →
      ctxLookup (shallowMerge c p) k = ctxLookup c k) ∧
    createStoreTransition incTransitions
        { context := [("count", Value.int 0), ("name", Value.str "Ada")],
          status := Status.active }
        { type := "inc", payload := [("by", Value.int 5)] }
      = Except.ok
          ({ context := [("count", Value.int 5), ("name", Value.str "Ada")],
             status := Status.active }, []) := by
  constructor
  · intro c p k hp
    unfold shallowMerge
    rw [ctxLookup_append, ctxLookup_mapPatch p c k hp]
    cases hc : ctxLookup c k with
    | some v => rfl
    | none => simpa using ctxLookup_filter_none p _ k hp
  · rfl

theorem shallow_merge_frame_witness :
    ctxLookup [("count", Value.int 5)] "name" = none ∧
    ctxLookup (shallowMerge [("count", Value.int 0), ("name", Value.str "Ada")]
        [("count", Value.int 5)]) "name"
      = ctxLookup [("count", Value.int 0), ("name", Value.str "Ada")] "name" :=
  ⟨rfl, shallow_merge_frame.1 [("count", Value.int 0), ("name", Value.str "Ada")]
    [("count", Value.int 5)] "name" rfl⟩

/-- C5: events staged via enqueue within one send are delivered to subscribers
in call order — a handler that enqueues e1 and then e2 makes every subscriber
observe e1 before e2 — and delivery happens only after the committed snapshot
of that transition is published. -/
theorem emission_fifo_after_commit (ts : Transitions) (st : StoreState)
    (ev : Event) (h : Handler) (p : Option Ctx) (e1 e2 : Event)
    (hh : ts ev.type = some h)
    (hres : h st.snapshot.context ev = Except.ok (p, enqueueEv (enqueueEv [] e1) e2)) :
    ∃ snap', (sendStore ts st ev).2 = none ∧
      (sendStore ts st ev).1.log
        = st.log ++ [Obs.commit snap', Obs.emit e1, Obs.emit e2] := by
  cases p with
  | none =>
      refine ⟨{ context := st.snapshot.context, status := st.snapshot.status }, ?_, ?_⟩ <;>
        simp [sendStore, createStoreTransition, hh, hres, enqueueEv]
  | some q =>
      refine ⟨{ context := shallowMerge st.snapshot.context q,
                status := st.snapshot.status }, ?_, ?_⟩ <;>
        simp [sendStore, createStoreTransition, hh, hres, enqueueEv]

theorem emission_fifo_after_commit_witness :
    fireTransitions evFire.type = some fireHandler ∧
    fireHandler (initialStore []).snapshot.context evFire
      = Except.ok (none, enqueueEv (enqueueEv [] evE1) evE2) ∧
    ∃ snap', (sendStore fireTransitions (initialStore []) evFire).2 = none ∧
      (sendStore fireTransitions (initialStore []) evFire).1.log
        = (initialStore []).log ++ [Obs.commit snap', Obs.emit evE1, Obs.emit evE2] :=
  ⟨rfl, rfl,
    emission_fifo_after_commit fireTransitions (initialStore []) evFire
      fireHandler none evE1 evE2 rfl rfl⟩

/-- C3: a promise actor whose promise resolves with v transitions to status
done with output v; one whose promise rejects with r transitions to status
error with error r; and sending any event to a promise actor is a no-op on
its snapshot. -/
theorem promise_settlement_and_event_noop :
    (∀ (s : PSnapshot) (v : Value), s.status = PStatus.active →
      (promiseTransition s (PEvent.resolve v)).status = PStatus.done ∧
      (promiseTransition s (PEvent.resolve v)).output = some v) ∧
    (∀ (s : PSnapshot) (r : Value), s.status = PStatus.active →
      (promiseTransition s (PEvent.reject r)).status = PStatus.error ∧
      (promiseTransition s (PEvent.reject r)).error = some r) ∧
    (∀ (s : PSnapshot) (e : Event), promiseTransition s (PEvent.ext e) = s) := by
  refine ⟨?_, ?_, ?_⟩
  · intro s v hs
    simp [promiseTransition, hs]
  · intro s r hs
    simp [promiseTransition, hs]
  · intro s e
    rfl

theorem promise_settlement_and_event_noop_witness :
    ({ status := PStatus.active, output := none, error := none } : PSnapshot).status
        = PStatus.active ∧
    (promiseTransition { status := PStatus.active, output := none, error := none }
        (PEvent.resolve (Value.int 42))).status = PStatus.done ∧
    (promiseTransition { status := PStatus.active, output := none, error := none }
        (PEvent.resolve (Value.int 42))).output = some (Value.int 42) :=
  ⟨rfl, promise_settlement_and_event_noop.1
    { status := PStatus.active, output := none, error := none } (Value.int 42) rfl⟩

/-- C10: toPromise settles exactly when the actor reaches a terminal status.
Forward: for any snapshot stream whose observations are non-terminal up to a
snapshot with status done (respectively error) — in particular an actor still
active at call time that settles later — the promise resolves with that
snapshot's output (respectively rejects with its error). As the special case
of an empty non-terminal prefix, an actor already done (respectively errored)
at call time settles the promise immediately from the current snapshot,
whatever comes later. Converse: whenever the promise settles, it does so at
the first terminal snapshot of the stream, with that snapshot's output on
done and its error on error. -/
theorem toPromise_settles_with_status :
    (∀ (pre : List PSnapshot) (s : PSnapshot) (post : List PSnapshot),
      (∀ t ∈ pre, t.status ≠ PStatus.done ∧ t.status ≠ PStatus.error) →
      s.status = PStatus.done →
      toPromise (pre ++ s :: post) = some (Except.ok s.output)) ∧
    (∀ (pre : List PSnapshot) (s : PSnapshot) (post : List PSnapshot),
      (∀ t ∈ pre, t.status ≠ PStatus.done ∧ t.status ≠ PStatus.error) →
      s.status = PStatus.error →
      toPromise (pre ++ s :: post) = some (Except.error s.error)) ∧
    (∀ (s : PSnapshot) (rest : List PSnapshot), s.status = PStatus.done →
      toPromise (s :: rest) = some (Except.ok s.output)) ∧
    (∀ (s : PSnapshot) (rest : List PSnapshot), s.status = PStatus.error →
      toPromise (s :: rest) = some (Except.error s.error)) ∧
    (∀ (obs : List PSnapshot) (r : Except (Option Value) (Option Value)),
      toPromise obs = some r →
      ∃ pre s post, obs = pre ++ s :: post ∧
        (∀ t ∈ pre, t.status ≠ PStatus.done ∧ t.status ≠ PStatus.error) ∧
        ((s.status = PStatus.done ∧ r = Except.ok s.output) ∨
         (s.status = PStatus.error ∧ r = Except.error s.error))) := by
  refine ⟨?_, ?_, ?_, ?_, ?_⟩
  · intro pre
    induction pre with
    | nil =>
        intro s post _ hs
        simp [toPromise, hs]
    | cons t rest ih =>
        intro s post hpre hs
        have ht := hpre t (List.mem_cons_self t rest)
        have hrest : ∀ u ∈ rest, u.status ≠ PStatus.done ∧ u.status ≠ PStatus.error :=
          fun u hu => hpre u (List.mem_cons_of_mem t hu)
        cases hts : t.status with
        | done => exact absurd hts ht.1
        | error => exact absurd hts ht.2
        | active =>
            rw [List.cons_append]
            simp only [toPromise, hts]
            exact ih s post hrest hs
        | stopped =>
            rw [List.cons_append]
            simp only [toPromise, hts]
            exact ih s post hrest hs
  · intro pre
    induction pre with
    | nil =>
        intro s post _ hs
        simp [toPromise, hs]
    | cons t rest ih =>
        intro s post hpre hs
        have ht := hpre t (List.mem_cons_self t rest)
        have hrest : ∀ u ∈ rest, u.status ≠ PStatus.done ∧ u.status ≠ PStatus.error :=
          fun u hu => hpre u (List.mem_cons_of_mem t hu)
        cases hts : t.status with
        | done => exact absurd hts ht.1
        | error => exact absurd hts ht.2
        | active =>
            rw [List.cons_append]
            simp only [toPromise, hts]
            exact ih s post hrest hs
        | stopped =>
            rw [List.cons_append]
            simp only [toPromise, hts]
            exact ih s post hrest hs
  · intro s rest hs
    simp [toPromise, hs]
  · intro s rest hs
    simp [toPromise, hs]
  · intro obs
    induction obs with
    | nil =>
        intro r hr
        simp [toPromise] at hr
    | cons s rest ih =>
        intro r hr
        cases hs : s.status with
        | done =>
            refine ⟨[], s, rest, rfl, by simp, Or.inl ⟨hs, ?_⟩⟩
            simp [toPromise, hs] at hr
            exact hr.symm
        | error =>
            refine ⟨[], s, rest, rfl, by simp, Or.inr ⟨hs, ?_⟩⟩
            simp [toPromise, hs] at hr
            exact hr.symm
        | active =>
            have hr' : toPromise rest = some r := by
              simpa [toPromise, hs] using hr
            obtain ⟨pre, s', post, heq, hpre, hterm⟩ := ih r hr'
            refine ⟨s :: pre, s', post, by simp [heq], ?_, hterm⟩
            intro t ht
            rcases List.mem_cons.mp ht with h1 | h2
            · subst h1
              exact ⟨by simp [hs], by simp [hs]⟩
            · exact hpre t h2
        | stopped =>
            have hr' : toPromise rest = some r := by
              simpa [toPromise, hs] using hr
            obtain ⟨pre, s', post, heq, hpre, hterm⟩ := ih r hr'
            refine ⟨s :: pre, s', post, by simp [heq], ?_, hterm⟩
            intro t ht
            rcases List.mem_cons.mp ht with h1 | h2
            · subst h1
              exact ⟨by simp [hs], by simp [hs]⟩
            · exact hpre t h2

theorem toPromise_settles_with_status_witness :
    (∀ t ∈ [({ status := PStatus.active, output := none, error := none } : PSnapshot)],
        t.status ≠ PStatus.done ∧ t.status ≠ PStatus.error) ∧
    ({ status := PStatus.done, output := some (Value.int 7), error := none } : PSnapshot).status
        = PStatus.done ∧
    toPromise ([{ status := PStatus.active, output := none, error := none }]
        ++ { status := PStatus.done, output := some (Value.int 7), error := none } :: [])
      = some (Except.ok (some (Value.int 7))) :=
  ⟨by decide, rfl,
    toPromise_settles_with_status.1
      [{ status := PStatus.active, output := none, error := none }]
      { status := PStatus.done, output := some (Value.int 7), error := none } []
      (by decide) rfl⟩

/-- Dropping the entries owned by a region from a registry consisting only of
fresh actors of that region leaves nothing. -/
theorem dropOwned_map_self (A : RegionId) (l : List String) :
    dropOwned A (l.map (fun aid => ((⟨A, aid⟩ : ActorKey), freshActor))) = [] := by
  induction l with
  | nil => rfl
  | cons aid rest ih => simp [dropOwned, ih]

/-- Registry lookup of a key misses every entry registered under a different
owner region. -/
theorem lookupReg_map_other (A B : RegionId) (x : String) (s : PSnapshot)
    (l : List String) (hAB : ¬ A = B) :
    lookupReg (l.map (fun aid => ((⟨B, aid⟩ : ActorKey), s))) ⟨A, x⟩ = none := by
  induction l with
  | nil => rfl
  | cons aid rest ih =>
      have hBA : ¬ ((⟨B, aid⟩ : ActorKey) = ⟨A, x⟩) := by
        intro h
        injection h with h1 h2
        exact hAB h1.symm
      simp [lookupReg, hBA, ih]

/-- A region change only appends to the lifecycle log. -/
theorem mem_lifecycle_enterRegion (cfg : InvokeConfig) (m : MachineState)
    (r : RegionId) (x : String × ActorKey) (hx : x ∈ m.lifecycle) :
    x ∈ (enterRegion cfg m r).lifecycle := by
  simp only [enterRegion, List.mem_append]
  tauto

/-- Every registry entry owned by a region is among that region's owned
entries. -/
theorem mem_takeOwned (r : RegionId) (l : List (ActorKey × PSnapshot))
    (kv : ActorKey × PSnapshot) (h : kv ∈ l) (ho : kv.1.owner = r) :
    kv ∈ takeOwned r l := by
  induction l with
  | nil => cases h
  | cons kv' rest ih =>
      rcases List.mem_cons.mp h with h1 | h2
      · subst h1
        simp [takeOwned, ho]
      · by_cases h' : kv'.1.owner = r
        · simp only [takeOwned, if_pos h']
          exact List.mem_cons_of_mem _ (ih h2)
        · simp only [takeOwned, if_neg h']
          exact ih h2

/-- No entry kept after dropping a region's actors is owned by that region. -/
theorem mem_dropOwned (r : RegionId) (l : List (ActorKey × PSnapshot))
    (x : ActorKey × PSnapshot) (h : x ∈ dropOwned r l) : ¬ x.1.owner = r := by
  induction l with
  | nil => simp [dropOwned] at h
  | cons kv rest ih =>
      by_cases h' : kv.1.owner = r
      · simp only [dropOwned, if_pos h'] at h
        exact ih h
      · simp only [dropOwned, if_neg h'] at h
        rcases List.mem_cons.mp h with h1 | h2
        · subst h1
          exact h'
        · exact ih h2

/-- C1: a settlement arriving for an actor whose invoking region was exited
before the promise settled is discarded — the machine state, and with it the
store snapshot (context) and the fired log, are unaffected, so no onDone or
onError transition fires for that actor. -/
theorem late_settlement_discarded (cfg : InvokeConfig) (r0 : RegionId) (c : Ctx)
    (A B : RegionId) (aid : String) (res : Except Value Value) (hAB : ¬ A = B) :
    applySettlement cfg (enterRegion cfg (enterRegion cfg (initMachine r0 c) A) B)
        ⟨A, aid⟩ res
      = enterRegion cfg (enterRegion cfg (initMachine r0 c) A) B := by
  have hreg : (enterRegion cfg (enterRegion cfg (initMachine r0 c) A) B).registry
      = (cfg.bindings B).map (fun i => ((⟨B, i⟩ : ActorKey), freshActor)) := by
    simp [enterRegion, initMachine, dropOwned, dropOwned_map_self]
  have hlook :
      lookupReg (enterRegion cfg (enterRegion cfg (initMachine r0 c) A) B).registry
        ⟨A, aid⟩ = none := by
    rw [hreg]
    exact lookupReg_map_other A B aid freshActor (cfg.bindings B) hAB
  simp [applySettlement, hlook]

theorem late_settlement_discarded_witness :
    ¬ ("A" : RegionId) = "B" ∧
    applySettlement wCfg
        (enterRegion wCfg (enterRegion wCfg (initMachine "idle" []) "A") "B")
        ⟨"A", "worker"⟩ (Except.ok (Value.int 1))
      = enterRegion wCfg (enterRegion wCfg (initMachine "idle" []) "A") "B" :=
  ⟨by decide, late_settlement_discarded wCfg "idle" [] "A" "B" "worker"
      (Except.ok (Value.int 1)) (by decide)⟩

/-- C6: an invoked actor's lifetime is bound to its owning state's active
period — on entry each declared binding is created active and its start is
logged; on exit every actor registered under the exited region has its stop
logged, and (for a genuine region change) no actor keyed to the exited region
remains registered; an actor that self-reports done or error is torn down
with its stop logged; and stopping the parent store stops every registered
actor. -/
theorem invoked_actor_lifetime_bound :
    (∀ (cfg : InvokeConfig) (m : MachineState) (r : RegionId) (aid : String),
        aid ∈ cfg.bindings r →
        ((⟨r, aid⟩ : ActorKey), freshActor) ∈ (enterRegion cfg m r).registry ∧
        ("started", (⟨r, aid⟩ : ActorKey)) ∈ (enterRegion cfg m r).lifecycle) ∧
    (∀ (cfg : InvokeConfig) (m : MachineState) (r : RegionId)
        (kv : ActorKey × PSnapshot),
        kv ∈ m.registry → kv.1.owner = m.region →
        ("stopped", kv.1) ∈ (enterRegion cfg m r).lifecycle) ∧
    (∀ (cfg : InvokeConfig) (m : MachineState) (r : RegionId)
        (kv : ActorKey × PSnapshot),
        ¬ r = m.region → kv ∈ m.registry → kv.1.owner = m.region →
        ∀ s : PSnapshot, (kv.1, s) ∉ (enterRegion cfg m r).registry) ∧
    (∀ (cfg : InvokeConfig) (m : MachineState) (k : ActorKey)
        (res : Except Value Value) (snap : PSnapshot),
        lookupReg m.registry k = some snap → snap.status = PStatus.active →
        ("stopped", k) ∈ (applySettlement cfg m k res).lifecycle) ∧
    (∀ (m : MachineState) (kv : ActorKey × PSnapshot), kv ∈ m.registry →
        ("stopped", kv.1) ∈ (stopMachine m).lifecycle) := by
  refine ⟨?_, ?_, ?_, ?_, ?_⟩
  · intro cfg m r aid haid
    constructor
    · simp only [enterRegion]
      exact List.mem_append_right _ (List.mem_map.mpr ⟨aid, haid, rfl⟩)
    · simp only [enterRegion]
      exact List.mem_append_right _ (List.mem_map.mpr ⟨aid, haid, rfl⟩)
  · intro cfg m r kv hkv ho
    simp only [enterRegion]
    refine List.mem_append_left _ (List.mem_append_right _ ?_)
    exact List.mem_map.mpr ⟨kv, mem_takeOwned m.region m.registry kv hkv ho, rfl⟩
  · intro cfg m r kv hr hkv ho s hmem
    simp only [enterRegion] at hmem
    rcases List.mem_append.mp hmem with h1 | h2
    · exact mem_dropOwned m.region m.registry (kv.1, s) h1 ho
    · rcases List.mem_map.mp h2 with ⟨i, _, heq⟩
      have hro : r = kv.1.owner := congrArg (fun p => p.1.owner) heq
      apply hr
      rw [hro]
      exact ho
  · intro cfg m k res snap hl hs
    cases res with
    | ok v =>
        cases ht : cfg.onDoneTarget k.actorId with
        | none => simp [applySettlement, hl, hs, ht]
        | some tgt =>
            simp only [applySettlement, hl, hs, ht, if_pos]
            exact mem_lifecycle_enterRegion _ _ _ _ (by simp)
    | error e =>
        cases ht : cfg.onErrorTarget k.actorId with
        | none => simp [applySettlement, hl, hs, ht]
        | some tgt =>
            simp only [applySettlement, hl, hs, ht, if_pos]
            exact mem_lifecycle_enterRegion _ _ _ _ (by simp)
  · intro m kv hkv
    simp only [stopMachine]
    exact List.mem_append_right _ (List.mem_map.mpr ⟨kv, hkv, rfl⟩)

theorem invoked_actor_lifetime_bound_witness :
    "worker" ∈ wCfg.bindings "A" ∧
    (((⟨"A", "worker"⟩ : ActorKey), freshActor)
        ∈ (enterRegion wCfg (initMachine "idle" []) "A").registry ∧
      ("started", (⟨"A", "worker"⟩ : ActorKey))
        ∈ (enterRegion wCfg (initMachine "idle" []) "A").lifecycle) :=
  ⟨by decide,
    invoked_actor_lifetime_bound.1 wCfg (initMachine "idle" []) "A" "worker" (by decide)⟩

/-- Fully draining a queue applies the pending events sequentially, appending
them to the processed list in order. -/
theorem drainAux_spec (ts : Transitions) (evs : List Event) :
    ∀ (st : StoreState) (pr : List Event) (es : List Err),
    drainAux ts evs st pr es =
      { pending := [], store := runEvents ts st evs,
        processed := pr ++ evs, errs := es ++ runErrs ts st evs } := by
  induction evs with
  | nil =>
      intro st pr es
      simp [drainAux, runEvents, runErrs]
  | cons ev rest ih =>
      intro st pr es
      simp [drainAux, runEvents, runErrs, ih, List.append_assoc]

/-- One scheduling step does not change the fully-drained state. -/
theorem step_drain (ts : Transitions) {s s' : LoopState} (h : LoopStep ts s s') :
    drain ts s' = drain ts s := by
  cases h with
  | proc ev rest st pr es => rfl

/-- A whole run does not change the fully-drained state. -/
theorem reaches_drain (ts : Transitions) {s t : LoopState} (h : Reaches ts s t) :
    drain ts t = drain ts s := by
  induction h with
  | refl => rfl
  | tail h1 h2 ih => rw [step_drain ts h2, ih]

/-- A loop state with nothing pending is already fully drained. -/
theorem final_drain (ts : Transitions) {t : LoopState} (hf : t.pending = []) :
    drain ts t = t := by
  cases t with
  | mk pending store processed errs =>
      cases hf
      rfl

/-- C7: for N send calls arriving at the store, every complete run of the
event loop applies exactly those N transitions, in submission (FIFO arrival)
order, and the resulting store equals the strictly sequential application —
transitions are processed one at a time as atomic steps and never
interleave. -/
theorem sends_serialized_fifo (ts : Transitions) (st : StoreState)
    (evs : List Event) (t : LoopState)
    (h : Reaches ts (mkLoop st evs) t) (hf : t.pending = []) :
    t.processed = evs ∧ t.store = runEvents ts st evs := by
  have ht : t = drain ts (mkLoop st evs) := by
    rw [← final_drain ts hf, reaches_drain ts h]
  have hd : drain ts (mkLoop st evs)
      = { pending := [], store := runEvents ts st evs,
          processed := evs, errs := runErrs ts st evs } := by
    simp [drain, mkLoop, drainAux_spec]
  rw [ht, hd]
  exact ⟨rfl, rfl⟩

theorem sends_serialized_fifo_witness :
    wFinal.pending = [] ∧
    (wFinal.processed = [wEv] ∧
      wFinal.store = runEvents wTs (initialStore []) [wEv]) :=
  ⟨rfl, sends_serialized_fifo wTs (initialStore []) [wEv] wFinal
    (Relation.ReflTransGen.single (LoopStep.proc wEv [] (initialStore []) [] []))
    rfl⟩

/-- C8: the store is deterministic — any two complete runs of the event loop
from the same initial context over the same arrived event sequence end with
identical snapshots. -/
theorem store_deterministic (ts : Transitions) (c : Ctx) (evs : List Event)
    (t1 t2 : LoopState)
    (h1 : Reaches ts (mkLoop (initialStore c) evs) t1) (hf1 : t1.pending = [])
    (h2 : Reaches ts (mkLoop (initialStore c) evs) t2) (hf2 : t2.pending = []) :
    getSnapshot t1.store = getSnapshot t2.store := by
  have e1 : t1 = drain ts (mkLoop (initialStore c) evs) := by
    rw [← final_drain ts hf1, reaches_drain ts h1]
  have e2 : t2 = drain ts (mkLoop (initialStore c) evs) := by
    rw [← final_drain ts hf2, reaches_drain ts h2]
  rw [e1, e2]

theorem store_deterministic_witness :
    getSnapshot wFinal.store = getSnapshot wFinal.store :=
  store_deterministic wTs [] [wEv] wFinal wFinal
    (Relation.ReflTransGen.single (LoopStep.proc wEv [] (initialStore []) [] []))
    rfl
    (Relation.ReflTransGen.single (LoopStep.proc wEv [] (initialStore []) [] []))
    rfl

end StoreRuntime
